import Mathlib

/-!
Verification of the streaming anomaly-detection system (server.py):
the ADWIN drift detector, the Z-score anomaly detector, and the
server's reply/session logic, shallowly embedded over real numbers
(Python floats are idealised as reals, ints as naturals).
-/

set_option maxHeartbeats 1000000

open Classical

/-- State of the ADWIN drift detector (`class ADWIN`, server.py lines 15-21).
`bucket_row` holds each bucket's representative value, `bucket_sizes` the
parallel list of logical sizes; `total`, `variance`, `width` are the running
aggregates.  Python's float fields become `ℝ`, the integer sizes and width
become `ℕ`. -/
structure ADWIN where
  delta : ℝ
  bucket_row : List ℝ
  bucket_sizes : List ℕ
  total : ℝ
  variance : ℝ
  width : ℕ

namespace ADWIN

/-- Constructor `ADWIN.__init__` (server.py lines 15-21): empty bucket lists, zero
aggregates, confidence parameter `delta`. -/
noncomputable def init (delta : ℝ) : ADWIN :=
  { delta := delta, bucket_row := [], bucket_sizes := [], total := 0, variance := 0, width := 0 }

/-- The default confidence parameter `delta=0.002` of `ADWIN.__init__`. -/
noncomputable def defaultDelta : ℝ := 1 / 500

/-- Method `ADWIN.insert_element` (server.py lines 37-45): append the value as a new
bucket of size 1 and bump the aggregates. -/
noncomputable def insert_element (a : ADWIN) (value : ℝ) : ADWIN :=
  { a with
    width := a.width + 1
    total := a.total + value
    variance := a.variance + value * value
    bucket_row := a.bucket_row ++ [value]
    bucket_sizes := a.bucket_sizes ++ [1] }

end ADWIN

/-- Length of the maximal leading run of entries of `l` equal to `s`;
mirrors the inner `while` of `ADWIN.compress_buckets` (server.py line 55),
counting from the element after the run's head. -/
def countRun (s : ℕ) : List ℕ → ℕ
  | [] => 0
  | t :: rest => if t = s then countRun s rest + 1 else 0

/-- Functional form of the outer loop of `ADWIN.compress_buckets`
(server.py lines 47-65) on the zipped (value, size) bucket list.
At index `i` the code finds the maximal run of buckets sharing
`bucket_sizes[i]`.  A run of length 1 leaves the bucket and — because the
code then executes `i = k` *and* `i += 1` — skips the following bucket
unexamined.  A longer run is merged into one bucket holding the arithmetic
mean of the run's values and the shared size times the run length, and the
scan resumes right after the merged run (`i += 1` alone). -/
noncomputable def compressPairs : List (ℝ × ℕ) → List (ℝ × ℕ)
  | [] => []
  | (v, s) :: rest =>
    let r := countRun s (rest.map Prod.snd)
    if h : r = 0 then
      match rest with
      | [] => [(v, s)]
      | q :: rest2 => (v, s) :: q :: compressPairs rest2
    else
      ((v + ((rest.take r).map Prod.fst).sum) / ((r : ℝ) + 1), s * (r + 1)) ::
        compressPairs (rest.drop r)
termination_by l => l.length
decreasing_by
  · simp only [List.length_cons]; omega
  · simp only [List.length_cons, List.length_drop]; omega

namespace ADWIN

/-- Method `ADWIN.compress_buckets` (server.py lines 47-65) on the detector state:
compress the zipped bucket list and store the value/size projections back in
the two parallel lists.  The aggregates are not touched. -/
noncomputable def compress_buckets (a : ADWIN) : ADWIN :=
  let bs := compressPairs (a.bucket_row.zip a.bucket_sizes)
  { a with bucket_row := bs.map Prod.fst, bucket_sizes := bs.map Prod.snd }

/-- Quantity `n0` at split `i` (server.py line 75): total size of the buckets before
the split. -/
def n0 (a : ADWIN) (i : ℕ) : ℕ := (a.bucket_sizes.take i).sum

/-- Quantity `n1` at split `i` (server.py line 75): total size of the buckets from the
split onward. -/
def n1 (a : ADWIN) (i : ℕ) : ℕ := (a.bucket_sizes.drop i).sum

/-- The weighted sum `sum(x * y for x, y in zip(row, sizes))` used throughout
`ADWIN.detect_change` (server.py lines 78-79, 85). -/
noncomputable def wsum (l : List (ℝ × ℕ)) : ℝ := (l.map fun p => p.1 * (p.2 : ℝ)).sum

/-- The weighted sum of squares `sum(x * x * y for x, y in zip(row, sizes))`
(server.py line 86). -/
noncomputable def wsqsum (l : List (ℝ × ℕ)) : ℝ := (l.map fun p => p.1 * p.1 * (p.2 : ℝ)).sum

/-- Mean `u0` at split `i` (server.py line 78): weighted mean of the buckets
before the split. -/
noncomputable def u0 (a : ADWIN) (i : ℕ) : ℝ :=
  wsum ((a.bucket_row.take i).zip (a.bucket_sizes.take i)) / (n0 a i : ℝ)

/-- Mean `u1` at split `i` (server.py line 79): weighted mean of the buckets from
the split onward. -/
noncomputable def u1 (a : ADWIN) (i : ℕ) : ℝ :=
  wsum ((a.bucket_row.drop i).zip (a.bucket_sizes.drop i)) / (n1 a i : ℝ)

/-- The threshold `eps = sqrt(2 * m * log(4/delta) / n0 / n1)` with the
harmonic-combined count `m = 1/(1/n0 + 1/n1)` (server.py lines 80-81). -/
noncomputable def eps (a : ADWIN) (i : ℕ) : ℝ :=
  Real.sqrt (2 * (1 / (1 / (n0 a i : ℝ) + 1 / (n1 a i : ℝ))) *
    Real.log (4 / a.delta) / (n0 a i : ℝ) / (n1 a i : ℝ))

/-- The state stored when a change is declared at split `i`
(server.py lines 84-88): keep only the buckets from `i` onward and recompute
`width`, `total`, `variance` from them. -/
noncomputable def shrinkAt (a : ADWIN) (i : ℕ) : ADWIN :=
  { delta := a.delta
    bucket_row := a.bucket_row.drop i
    bucket_sizes := a.bucket_sizes.drop i
    total := wsum ((a.bucket_row.drop i).zip (a.bucket_sizes.drop i))
    variance := wsqsum ((a.bucket_row.drop i).zip (a.bucket_sizes.drop i))
    width := n1 a i }

/-- The body of the `for i in range(1, len(self.bucket_sizes))` loop of
`ADWIN.detect_change` (server.py lines 74-90), as a recursion on the split
index: skip a split with an empty side, return the shrunk state and `True`
at the first split whose mean gap exceeds `eps`, fall through to `(a, False)`
when the scan runs off the end. -/
noncomputable def detectLoop (a : ADWIN) (i : ℕ) : ADWIN × Bool :=
  if h : i < a.bucket_sizes.length then
    if n0 a i = 0 ∨ n1 a i = 0 then detectLoop a (i + 1)
    else if |u0 a i - u1 a i| > eps a i then (shrinkAt a i, true)
    else detectLoop a (i + 1)
  else (a, false)
termination_by a.bucket_sizes.length - i

/-- Method `ADWIN.detect_change` (server.py lines 67-90): scan the split points from
`i = 1` upward. -/
noncomputable def detect_change (a : ADWIN) : ADWIN × Bool := detectLoop a 1

/-- Method `ADWIN.update` (server.py lines 23-35): insert, compress, then detect. -/
noncomputable def update (a : ADWIN) (value : ℝ) : ADWIN × Bool :=
  detect_change (compress_buckets (insert_element a value))

end ADWIN

/-- Feed a list of values through `ADWIN.update`, collecting the returned
change flags in order. -/
noncomputable def runUpdates (a : ADWIN) : List ℝ → ADWIN × List Bool
  | [] => (a, [])
  | v :: vs =>
    let p := ADWIN.update a v
    let q := runUpdates p.1 vs
    (q.1, p.2 :: q.2)

/-- First split index at which `ADWIN.detect_change` declares a change,
following the specification's words: scan `i = 1 .. bucket count - 1` in
increasing order, skip a split with an empty side, and stop at the first
split whose weighted-mean gap exceeds the threshold `eps`. -/
def ADWIN.splitTrigger (a : ADWIN) (i : ℕ) : Prop :=
  ADWIN.n0 a i ≠ 0 ∧ ADWIN.n1 a i ≠ 0 ∧ |ADWIN.u0 a i - ADWIN.u1 a i| > ADWIN.eps a i

/-- The first triggering split index, if any, scanning left to right. -/
noncomputable def ADWIN.firstTrigger (a : ADWIN) : Option ℕ :=
  (List.range' 1 (a.bucket_sizes.length - 1)).find? fun i => decide (ADWIN.splitTrigger a i)

/-- The scan of `detect_change` as the specification describes it: at the first
triggering split discard the buckets before it, recompute the aggregates
from the retained right-hand buckets and report a change; report no change
and keep the state when no split triggers. -/
noncomputable def ADWIN.detectChangeSpec (a : ADWIN) : ADWIN × Bool :=
  match ADWIN.firstTrigger a with
  | some i => (ADWIN.shrinkAt a i, true)
  | none => (a, false)

/-- State of the `AnomalyDetector` (server.py lines 101-104): an ADWIN
instance, the trailing window of raw values (Python's
`deque(maxlen=window_size)`, most recent last), its capacity, and the
Z-score threshold. -/
structure AnomalyDetector where
  adwin : ADWIN
  window : List ℝ
  maxlen : ℕ
  z_threshold : ℝ

/-- Appending to a `deque(maxlen=m)`: the new value goes to the right end and
the oldest value is evicted once the capacity is reached
(server.py line 117). -/
noncomputable def dequeAppend (m : ℕ) (w : List ℝ) (v : ℝ) : List ℝ :=
  if w.length < m then w ++ [v] else w.drop 1 ++ [v]

/-- Constructor `AnomalyDetector.__init__` (server.py lines 101-104): fresh default ADWIN
and an empty window. -/
noncomputable def AnomalyDetector.init (window_size : ℕ) (z_threshold : ℝ) : AnomalyDetector :=
  { adwin := ADWIN.init ADWIN.defaultDelta, window := [], maxlen := window_size,
    z_threshold := z_threshold }

/-- Mean of the trailing window, `sum(window) / len(window)`
(server.py line 124). -/
noncomputable def winMean (w : List ℝ) : ℝ := w.sum / (w.length : ℝ)

/-- Population variance of the trailing window,
`sum((x - mean)**2 for x in window) / len(window)` (server.py line 125). -/
noncomputable def winVariance (w : List ℝ) : ℝ :=
  ((w.map fun x => (x - winMean w) ^ 2).sum) / (w.length : ℝ)

/-- The floor `std_dev = math.sqrt(variance) if variance > 1e-6 else 1e-6`
(server.py line 126). -/
noncomputable def winStdDev (w : List ℝ) : ℝ :=
  if winVariance w > 1 / 1000000 then Real.sqrt (winVariance w) else 1 / 1000000

/-- Method `AnomalyDetector.detect_anomaly` (server.py lines 106-129): append the
value to the trailing window, update ADWIN, and — only once the window is
full — flag the value when its absolute Z-score exceeds the threshold.
Returns the `(is_anomaly, concept_drift)` pair and the updated state. -/
noncomputable def detect_anomaly (d : AnomalyDetector) (value : ℝ) : (Bool × Bool) × AnomalyDetector :=
  let w := dequeAppend d.maxlen d.window value
  let p := ADWIN.update d.adwin value
  let d' : AnomalyDetector := { d with window := w, adwin := p.1 }
  if w.length < d.maxlen then ((false, p.2), d')
  else
    let z := |(value - winMean w) / winStdDev w|
    ((decide (z > d.z_threshold), p.2), d')

/-- Feed a list of values through `detect_anomaly`, collecting the
`(is_anomaly, concept_drift)` results in order. -/
noncomputable def runDetector (d : AnomalyDetector) : List ℝ → AnomalyDetector × List (Bool × Bool)
  | [] => (d, [])
  | v :: vs =>
    let p := detect_anomaly d v
    let q := runDetector p.2 vs
    (q.1, p.1 :: q.2)

/-- The server's reply choice (server.py lines 160-166): an anomaly takes
priority, then concept drift, else plain receipt; `valStr` stands for the
text Python's f-string substitutes for the parsed value. -/
def response (is_anomaly concept_drift : Bool) (valStr : String) : String :=
  if is_anomaly then "Anomaly detected: " ++ valStr
  else if concept_drift then "Concept drift detected: " ++ valStr
  else "Data received: " ++ valStr

/-- One step of the server's receive loop (server.py lines 146-171),
abstracted over Python's `float` parser and float formatter. -/
inductive SessionStep where
  | terminated : SessionStep
  | reply (resp : String) (st : AnomalyDetector) : SessionStep

/-- Processing of one received payload (server.py lines 148-171): an empty
payload or the literal `exit` ends the loop; a payload the float parser
rejects is answered with `Invalid data` and leaves the detector untouched;
otherwise the parsed value is run through the detector and answered with
the classification reply. -/
noncomputable def sessionStep (parse : String → Option ℝ) (fmt : ℝ → String)
    (d : AnomalyDetector) (data : String) : SessionStep :=
  if data = "" ∨ data = "exit" then .terminated
  else
    match parse data with
    | none => .reply "Invalid data" d
    | some x =>
      let p := detect_anomaly d x
      .reply (response p.1.1 p.1.2 (fmt x)) p.2

/-- The whole receive loop over a list of incoming payloads: collect the
replies and report whether the loop was ended by a terminating payload. -/
noncomputable def sessionRun (parse : String → Option ℝ) (fmt : ℝ → String) :
    AnomalyDetector → List String → List String × Bool
  | _, [] => ([], false)
  | d, data :: rest =>
    match sessionStep parse fmt d data with
    | .terminated => ([], true)
    | .reply r d' =>
      let q := sessionRun parse fmt d' rest
      (r :: q.1, q.2)

/-- A state whose bucket representatives are all `c`, with coherent list
lengths and a width matching the bucket sizes. -/
def ConstState (c : ℝ) (a : ADWIN) : Prop :=
  (∀ x ∈ a.bucket_row, x = c) ∧ a.bucket_row.length = a.bucket_sizes.length ∧
    a.width = a.bucket_sizes.sum

/-- The aggregate/bucket-list consistency invariant the spec asserts for
`width` and `total`: the width is the sum of the bucket sizes and `total` is
the size-weighted sum of the representatives (with the two parallel lists of
equal length). -/
def AdwinInv (a : ADWIN) : Prop :=
  a.bucket_row.length = a.bucket_sizes.length ∧
  a.width = a.bucket_sizes.sum ∧
  a.total = ADWIN.wsum (a.bucket_row.zip a.bucket_sizes)

/-- Shape of the (value, size) bucket lists reachable from a fresh detector
when no change is ever declared: a run of (size 2, size 1) blocks, optionally
ending in a single bucket of size 1 or of size 2. -/
inductive NSForm : List (ℝ × ℕ) → Prop where
  | nil : NSForm []
  | one (a : ℝ) : NSForm [(a, 1)]
  | two (a : ℝ) : NSForm [(a, 2)]
  | block (a b : ℝ) (l : List (ℝ × ℕ)) : NSForm l → NSForm ((a, 2) :: (b, 1) :: l)

/-! ### Basic lemmas about runs, compression, and weighted sums -/

lemma countRun_le (s : ℕ) : ∀ l : List ℕ, countRun s l ≤ l.length
  | [] => by simp [countRun]
  | t :: rest => by
    by_cases h : t = s
    · simpa [countRun, h] using countRun_le s rest
    · simp [countRun, h]

lemma take_countRun (s : ℕ) : ∀ l : List ℕ, l.take (countRun s l) = List.replicate (countRun s l) s
  | [] => by simp [countRun]
  | t :: rest => by
    by_cases h : t = s
    · simp [countRun, h, List.replicate_succ, take_countRun s rest]
    · simp [countRun, h]

lemma ADWIN.wsum_nil : ADWIN.wsum [] = 0 := rfl

lemma ADWIN.wsum_cons (p : ℝ × ℕ) (l : List (ℝ × ℕ)) :
    ADWIN.wsum (p :: l) = p.1 * (p.2 : ℝ) + ADWIN.wsum l := by
  simp [ADWIN.wsum]

lemma ADWIN.wsum_append (l m : List (ℝ × ℕ)) :
    ADWIN.wsum (l ++ m) = ADWIN.wsum l + ADWIN.wsum m := by
  simp [ADWIN.wsum]

lemma sum_of_all_eq {c : ℝ} {l : List ℝ} (h : ∀ x ∈ l, x = c) :
    l.sum = (l.length : ℝ) * c := by
  rw [List.eq_replicate_of_mem h, List.sum_replicate, List.length_replicate, nsmul_eq_mul]

/-- On a list whose sizes are all `s`, the weighted sum is `s` times the sum
of the values. -/
lemma ADWIN.wsum_of_snd_all_eq {s : ℕ} : ∀ {l : List (ℝ × ℕ)}, (∀ p ∈ l, (p : ℝ × ℕ).2 = s) →
    ADWIN.wsum l = ((l.map Prod.fst).sum) * (s : ℝ)
  | [], _ => by simp [ADWIN.wsum]
  | p :: l, h => by
    have hp : p.2 = s := h p (by simp)
    have hl : ∀ q ∈ l, (q : ℝ × ℕ).2 = s := fun q hq => h q (by simp [hq])
    rw [ADWIN.wsum_cons, ADWIN.wsum_of_snd_all_eq hl, hp]
    simp [add_mul]

/-- The length of the leading run extracted by `compress_buckets`. -/
lemma length_take_countRun (s : ℕ) (rest : List (ℝ × ℕ)) :
    (rest.take (countRun s (rest.map Prod.snd))).length = countRun s (rest.map Prod.snd) := by
  have := countRun_le s (rest.map Prod.snd)
  simp only [List.length_map] at this
  simp [List.length_take, this]

/-- The sizes of the leading run are all the shared size. -/
lemma map_snd_take_countRun (s : ℕ) (rest : List (ℝ × ℕ)) :
    (rest.take (countRun s (rest.map Prod.snd))).map Prod.snd =
      List.replicate (countRun s (rest.map Prod.snd)) s := by
  rw [List.map_take, take_countRun]

/-! Unfolding equations for `compressPairs`. -/

lemma compressPairs_nil : compressPairs [] = [] := by
  rw [compressPairs.eq_def]

lemma compressPairs_single (v : ℝ) (s : ℕ) : compressPairs [(v, s)] = [(v, s)] := by
  rw [compressPairs.eq_def]
  simp [countRun]

lemma compressPairs_cons_of_ne (v : ℝ) (s : ℕ) (q : ℝ × ℕ) (rest2 : List (ℝ × ℕ))
    (h : q.2 ≠ s) :
    compressPairs ((v, s) :: q :: rest2) = (v, s) :: q :: compressPairs rest2 := by
  rw [compressPairs.eq_def]
  simp [countRun, h]

lemma compressPairs_cons_merge (v : ℝ) (s : ℕ) (rest : List (ℝ × ℕ))
    (h : countRun s (rest.map Prod.snd) ≠ 0) :
    compressPairs ((v, s) :: rest) =
      ((v + ((rest.take (countRun s (rest.map Prod.snd))).map Prod.fst).sum) /
          ((countRun s (rest.map Prod.snd) : ℝ) + 1),
        s * (countRun s (rest.map Prod.snd) + 1)) ::
        compressPairs (rest.drop (countRun s (rest.map Prod.snd))) := by
  rw [compressPairs.eq_def]
  simp only [h, reduceDIte]

/-- Compression preserves the total size of the bucket list. -/
lemma compressPairs_sizes_sum (l : List (ℝ × ℕ)) :
    ((compressPairs l).map Prod.snd).sum = (l.map Prod.snd).sum := by
  suffices H : ∀ (n : ℕ) (l : List (ℝ × ℕ)), l.length ≤ n →
      ((compressPairs l).map Prod.snd).sum = (l.map Prod.snd).sum from H l.length l le_rfl
  intro n
  induction n with
  | zero =>
    intro l hl
    have : l = [] := List.eq_nil_of_length_eq_zero (by omega)
    simp [this, compressPairs_nil]
  | succ n ih =>
    intro l hl
    rcases l with _ | ⟨⟨v, s⟩, rest⟩
    · simp [compressPairs_nil]
    · by_cases hr : countRun s (rest.map Prod.snd) = 0
      · rcases rest with _ | ⟨q, rest2⟩
        · simp [compressPairs_single]
        · have hq : q.2 ≠ s := by
            intro h
            simp [countRun, h] at hr
          rw [compressPairs_cons_of_ne v s q rest2 hq]
          have hrec := ih rest2 (by simp at hl ⊢; omega)
          simp [hrec]
      · rw [compressPairs_cons_merge v s rest hr]
        have hrec := ih (rest.drop (countRun s (rest.map Prod.snd)))
          (by simp at hl ⊢; omega)
        have hsplit : ((rest.map Prod.snd).take (countRun s (rest.map Prod.snd))).sum +
            ((rest.map Prod.snd).drop (countRun s (rest.map Prod.snd))).sum
            = (rest.map Prod.snd).sum := List.sum_take_add_sum_drop _ _
        have htake : (rest.map Prod.snd).take (countRun s (rest.map Prod.snd)) =
            List.replicate (countRun s (rest.map Prod.snd)) s := take_countRun s _
        simp only [List.map_cons, List.sum_cons, List.map_drop] at *
        rw [← hsplit, htake, hrec]
        simp only [List.sum_replicate, smul_eq_mul]
        ring

/-- Compression preserves the weighted sum that `total` tracks. -/
lemma compressPairs_wsum (l : List (ℝ × ℕ)) :
    ADWIN.wsum (compressPairs l) = ADWIN.wsum l := by
  suffices H : ∀ (n : ℕ) (l : List (ℝ × ℕ)), l.length ≤ n →
      ADWIN.wsum (compressPairs l) = ADWIN.wsum l from H l.length l le_rfl
  intro n
  induction n with
  | zero =>
    intro l hl
    have : l = [] := List.eq_nil_of_length_eq_zero (by omega)
    simp [this, compressPairs_nil]
  | succ n ih =>
    intro l hl
    rcases l with _ | ⟨⟨v, s⟩, rest⟩
    · simp [compressPairs_nil]
    · by_cases hr : countRun s (rest.map Prod.snd) = 0
      · rcases rest with _ | ⟨q, rest2⟩
        · simp [compressPairs_single]
        · have hq : q.2 ≠ s := by
            intro h
            simp [countRun, h] at hr
          rw [compressPairs_cons_of_ne v s q rest2 hq]
          have hrec := ih rest2 (by simp at hl ⊢; omega)
          simp [ADWIN.wsum_cons, hrec]
      · rw [compressPairs_cons_merge v s rest hr]
        have hrec := ih (rest.drop (countRun s (rest.map Prod.snd)))
          (by simp at hl ⊢; omega)
        have hsplit : ADWIN.wsum (rest.take (countRun s (rest.map Prod.snd))) +
            ADWIN.wsum (rest.drop (countRun s (rest.map Prod.snd))) = ADWIN.wsum rest := by
          rw [← ADWIN.wsum_append, List.take_append_drop]
        have htakes : ∀ p ∈ rest.take (countRun s (rest.map Prod.snd)), (p : ℝ × ℕ).2 = s := by
          intro p hp
          have : p.2 ∈ (rest.take (countRun s (rest.map Prod.snd))).map Prod.snd :=
            List.mem_map_of_mem Prod.snd hp
          rw [map_snd_take_countRun] at this
          exact List.eq_of_mem_replicate this
        have hwtake := ADWIN.wsum_of_snd_all_eq htakes
        have hr1 : ((countRun s (rest.map Prod.snd) : ℝ) + 1) ≠ 0 := by positivity
        rw [ADWIN.wsum_cons, ADWIN.wsum_cons, hrec, ← hsplit, hwtake]
        dsimp only
        push_cast
        field_simp
        ring

/-- Compression keeps every representative value equal to `c` when they all
were: merged buckets store the average of values that are all `c`. -/
lemma compressPairs_mem_fst {c : ℝ} (l : List (ℝ × ℕ))
    (hall : ∀ p ∈ l, (p : ℝ × ℕ).1 = c) : ∀ p ∈ compressPairs l, (p : ℝ × ℕ).1 = c := by
  suffices H : ∀ (n : ℕ) (l : List (ℝ × ℕ)), l.length ≤ n →
      (∀ p ∈ l, (p : ℝ × ℕ).1 = c) → ∀ p ∈ compressPairs l, (p : ℝ × ℕ).1 = c from
    H l.length l le_rfl hall
  intro n
  induction n with
  | zero =>
    intro l hl _ p hp
    have : l = [] := List.eq_nil_of_length_eq_zero (by omega)
    subst this
    simp [compressPairs_nil] at hp
  | succ n ih =>
    intro l hl h p hp
    rcases l with _ | ⟨⟨v, s⟩, rest⟩
    · simp [compressPairs_nil] at hp
    · by_cases hr : countRun s (rest.map Prod.snd) = 0
      · rcases rest with _ | ⟨q, rest2⟩
        · rw [compressPairs_single] at hp
          exact h p (by simpa using hp)
        · have hq : q.2 ≠ s := by
            intro hqs
            simp [countRun, hqs] at hr
          rw [compressPairs_cons_of_ne v s q rest2 hq] at hp
          simp only [List.mem_cons] at hp
          rcases hp with rfl | rfl | hp
          · exact h (v, s) (by simp)
          · exact h p (by simp)
          · exact ih rest2 (by simp at hl ⊢; omega)
              (fun q' hq' => h q' (by simp [hq'])) p hp
      · rw [compressPairs_cons_merge v s rest hr] at hp
        simp only [List.mem_cons] at hp
        rcases hp with rfl | hp
        · have hv : v = c := h (v, s) (by simp)
          have htk : ∀ x ∈ (rest.take (countRun s (rest.map Prod.snd))).map Prod.fst, x = c := by
            intro x hx
            rcases List.mem_map.mp hx with ⟨q', hq', rfl⟩
            exact h q' (by simp [List.take_subset _ _ hq'])
          have hsum : ((rest.take (countRun s (rest.map Prod.snd))).map Prod.fst).sum
              = ((countRun s (rest.map Prod.snd)) : ℝ) * c := by
            rw [sum_of_all_eq htk]
            simp only [List.length_map]
            rw [length_take_countRun]
          have hr1 : ((countRun s (rest.map Prod.snd) : ℝ) + 1) ≠ 0 := by positivity
          dsimp only
          rw [hv, hsum]
          field_simp
          ring
        · exact ih (rest.drop (countRun s (rest.map Prod.snd))) (by simp at hl ⊢; omega)
            (fun q' hq' => h q' (by simp [List.drop_subset _ _ hq'])) p hp

/-! ### The split-point scan of `detect_change` -/

/-- The scan from index `i` returns exactly what the first triggering split
in `i, i+1, ..., bucket count - 1` dictates. -/
lemma ADWIN.detectLoop_eq_find (a : ADWIN) :
    ∀ (k i : ℕ), a.bucket_sizes.length - i ≤ k →
      ADWIN.detectLoop a i =
        (match (List.range' i (a.bucket_sizes.length - i)).find?
            (fun j => decide (ADWIN.splitTrigger a j)) with
          | some j => (ADWIN.shrinkAt a j, true)
          | none => (a, false)) := by
  intro k
  induction k with
  | zero =>
    intro i hk
    have hi : ¬ i < a.bucket_sizes.length := by omega
    have h0 : a.bucket_sizes.length - i = 0 := by omega
    rw [ADWIN.detectLoop, h0]
    simp [hi]
  | succ k ih =>
    intro i hk
    by_cases hi : i < a.bucket_sizes.length
    · have hrange : a.bucket_sizes.length - i = (a.bucket_sizes.length - (i + 1)) + 1 := by
        omega
      rw [ADWIN.detectLoop, hrange, List.range'_succ]
      by_cases h0 : ADWIN.n0 a i = 0 ∨ ADWIN.n1 a i = 0
      · have hsp : ¬ ADWIN.splitTrigger a i := by
          rintro ⟨h1, h2, _⟩
          rcases h0 with h | h
          · exact h1 h
          · exact h2 h
        rw [List.find?_cons_of_neg _ (by simpa using hsp)]
        simp only [dif_pos hi, if_pos h0]
        exact ih (i + 1) (by omega)
      · by_cases hgt : |ADWIN.u0 a i - ADWIN.u1 a i| > ADWIN.eps a i
        · have hsp : ADWIN.splitTrigger a i :=
            ⟨(not_or.mp h0).1, (not_or.mp h0).2, hgt⟩
          rw [List.find?_cons_of_pos _ (by simpa using hsp)]
          simp only [dif_pos hi, if_neg h0, if_pos hgt]
        · have hsp : ¬ ADWIN.splitTrigger a i := fun ⟨_, _, hx⟩ => hgt hx
          rw [List.find?_cons_of_neg _ (by simpa using hsp)]
          simp only [dif_pos hi, if_neg h0, if_neg hgt]
          exact ih (i + 1) (by omega)
    · have h0 : a.bucket_sizes.length - i = 0 := by omega
      rw [ADWIN.detectLoop, h0]
      simp [hi]

/-- C1: `detect_change` scans the split points `i = 1 .. bucket count - 1` in
increasing order; at the first split whose two weighted means `u0`, `u1`
satisfy `|u0 - u1| > eps` (splits with an empty side are skipped) it discards
all buckets before the split, sets `width` to `n1`, recomputes `total` and
`variance` from the retained right-hand buckets only and returns `True`
without evaluating any later split point; when no split triggers it returns
`False` and leaves the state unchanged. -/
theorem detect_change_first_hit (a : ADWIN) :
    ADWIN.detect_change a = ADWIN.detectChangeSpec a := by
  rw [ADWIN.detect_change, ADWIN.detectLoop_eq_find a a.bucket_sizes.length 1 (by omega)]
  rfl

/-- A scan that reports no change leaves the state untouched. -/
lemma ADWIN.detect_change_of_snd_false {a : ADWIN}
    (h : (ADWIN.detect_change a).2 = false) : ADWIN.detect_change a = (a, false) := by
  rw [detect_change_first_hit] at h ⊢
  unfold ADWIN.detectChangeSpec at h ⊢
  rcases hft : ADWIN.firstTrigger a with _ | i
  · rfl
  · rw [hft] at h
    simp at h

/-! ### Constant streams never trigger a change -/

/-- Weighted sum over a list whose values are all `c`. -/
lemma ADWIN.wsum_fst_const {c : ℝ} : ∀ {L : List (ℝ × ℕ)}, (∀ p ∈ L, (p : ℝ × ℕ).1 = c) →
    ADWIN.wsum L = c * (((L.map Prod.snd).sum : ℕ) : ℝ)
  | [], _ => by simp [ADWIN.wsum]
  | p :: L, h => by
    have hp : p.1 = c := h p (by simp)
    have hL : ∀ q ∈ L, (q : ℝ × ℕ).1 = c := fun q hq => h q (by simp [hq])
    rw [ADWIN.wsum_cons, ADWIN.wsum_fst_const hL, hp]
    push_cast
    simp only [List.map_cons, List.sum_cons]
    ring

/-- Weighted sum over a zip against constant values. -/
lemma ADWIN.wsum_zip_const {c : ℝ} {l : List ℝ} {m : List ℕ} (h : ∀ x ∈ l, x = c)
    (hlen : m.length ≤ l.length) : ADWIN.wsum (l.zip m) = c * (m.sum : ℝ) := by
  have hall : ∀ p ∈ l.zip m, (p : ℝ × ℕ).1 = c := by
    rintro ⟨x, y⟩ hp
    exact h x (List.of_mem_zip hp).1
  rw [ADWIN.wsum_fst_const hall, List.map_snd_zip l m hlen]

/-- With all representatives equal, every split has `u0 = u1 = c` and the
strict threshold comparison (against a nonnegative square root) fails, so
the scan falls through. -/
lemma ADWIN.detectLoop_const {a : ADWIN} {c : ℝ}
    (hrow : ∀ x ∈ a.bucket_row, x = c)
    (hlen : a.bucket_row.length = a.bucket_sizes.length) :
    ∀ (k i : ℕ), a.bucket_sizes.length - i ≤ k → ADWIN.detectLoop a i = (a, false) := by
  intro k
  induction k with
  | zero =>
    intro i hk
    have hi : ¬ i < a.bucket_sizes.length := by omega
    rw [ADWIN.detectLoop]
    simp [hi]
  | succ k ih =>
    intro i hk
    rw [ADWIN.detectLoop]
    by_cases hi : i < a.bucket_sizes.length
    · simp only [dif_pos hi]
      by_cases h0 : ADWIN.n0 a i = 0 ∨ ADWIN.n1 a i = 0
      · rw [if_pos h0]
        exact ih (i + 1) (by omega)
      · rw [if_neg h0]
        have hn0 : ADWIN.n0 a i ≠ 0 := (not_or.mp h0).1
        have hn1 : ADWIN.n1 a i ≠ 0 := (not_or.mp h0).2
        have hu0 : ADWIN.u0 a i = c := by
          unfold ADWIN.u0
          rw [ADWIN.wsum_zip_const (fun x hx => hrow x (List.take_subset i _ hx))
            (by simp [hlen])]
          exact mul_div_cancel_right₀ c (Nat.cast_ne_zero.mpr hn0)
        have hu1 : ADWIN.u1 a i = c := by
          unfold ADWIN.u1
          rw [ADWIN.wsum_zip_const (fun x hx => hrow x (List.drop_subset i _ hx))
            (by simp [hlen])]
          exact mul_div_cancel_right₀ c (Nat.cast_ne_zero.mpr hn1)
        have hlt : ¬ |ADWIN.u0 a i - ADWIN.u1 a i| > ADWIN.eps a i := by
          rw [hu0, hu1, sub_self, abs_zero]
          exact not_lt.mpr (Real.sqrt_nonneg _)
        rw [if_neg hlt]
        exact ih (i + 1) (by omega)
    · simp [hi]

/-- Running `detect_change` on a state whose representatives are all equal reports
no change. -/
lemma ADWIN.detect_change_const {a : ADWIN} {c : ℝ}
    (hrow : ∀ x ∈ a.bucket_row, x = c)
    (hlen : a.bucket_row.length = a.bucket_sizes.length) :
    ADWIN.detect_change a = (a, false) :=
  ADWIN.detectLoop_const hrow hlen a.bucket_sizes.length 1 (by omega)

/-- Updating a constant-representative state with the same constant reports
no change and preserves the shape. -/
lemma ADWIN.update_const {c : ℝ} {a : ADWIN} (ha : ConstState c a) :
    ADWIN.update a c =
      (ADWIN.compress_buckets (ADWIN.insert_element a c), false) ∧
      ConstState c (ADWIN.compress_buckets (ADWIN.insert_element a c)) ∧
      (ADWIN.compress_buckets (ADWIN.insert_element a c)).width = a.width + 1 := by
  obtain ⟨hrow, hlen, hwidth⟩ := ha
  set b := ADWIN.insert_element a c with hb
  have hrowb : ∀ x ∈ b.bucket_row, x = c := by
    intro x hx
    rw [hb] at hx
    simp only [ADWIN.insert_element, List.mem_append, List.mem_singleton] at hx
    rcases hx with hx | hx
    · exact hrow x hx
    · exact hx
  have hlenb : b.bucket_row.length = b.bucket_sizes.length := by
    simp [hb, ADWIN.insert_element, hlen]
  have hzip : ∀ p ∈ b.bucket_row.zip b.bucket_sizes, (p : ℝ × ℕ).1 = c := by
    rintro ⟨x, y⟩ hp
    exact hrowb x (List.of_mem_zip hp).1
  set cb := ADWIN.compress_buckets b with hcb
  have hrowc : ∀ x ∈ cb.bucket_row, x = c := by
    intro x hx
    rw [hcb] at hx
    simp only [ADWIN.compress_buckets, List.mem_map] at hx
    rcases hx with ⟨p, hp, rfl⟩
    exact compressPairs_mem_fst _ hzip p hp
  have hlenc : cb.bucket_row.length = cb.bucket_sizes.length := by
    simp [hcb, ADWIN.compress_buckets]
  have hsizes : cb.bucket_sizes.sum = b.bucket_sizes.sum := by
    have h1 : ((compressPairs (b.bucket_row.zip b.bucket_sizes)).map Prod.snd).sum
        = ((b.bucket_row.zip b.bucket_sizes).map Prod.snd).sum :=
      compressPairs_sizes_sum _
    have h2 : (b.bucket_row.zip b.bucket_sizes).map Prod.snd = b.bucket_sizes :=
      List.map_snd_zip _ _ (le_of_eq hlenb.symm)
    simp only [hcb, ADWIN.compress_buckets]
    rw [h1, h2]
  have hwidthc : cb.width = a.width + 1 := by
    simp [hcb, ADWIN.compress_buckets, hb, ADWIN.insert_element]
  have hdet : ADWIN.detect_change cb = (cb, false) :=
    ADWIN.detect_change_const hrowc hlenc
  refine ⟨?_, ⟨hrowc, hlenc, ?_⟩, hwidthc⟩
  · rw [ADWIN.update, hdet]
  · rw [hwidthc, hsizes]
    simp [hb, ADWIN.insert_element, hwidth]

/-- Running a constant stream from a constant-shape state: every update
reports `false` and the width grows by one per insertion. -/
lemma const_run (c : ℝ) : ∀ (n : ℕ) (a : ADWIN), ConstState c a →
    (runUpdates a (List.replicate n c)).2 = List.replicate n false ∧
    ConstState c (runUpdates a (List.replicate n c)).1 ∧
    (runUpdates a (List.replicate n c)).1.width = a.width + n := by
  intro n
  induction n with
  | zero =>
    intro a ha
    simpa [runUpdates] using ha
  | succ n ih =>
    intro a ha
    obtain ⟨hupd, hconst, hwidth⟩ := ADWIN.update_const ha
    have hrec := ih _ hconst
    rw [List.replicate_succ]
    simp only [runUpdates, hupd]
    exact ⟨by simp [hrec.1, List.replicate_succ], hrec.2.1, by rw [hrec.2.2, hwidth]; omega⟩

/-- C4: feeding `n` copies of any value `c` into a fresh drift detector makes
every `update` call return `False`, and afterwards the bucket sizes sum
to `n`. -/
theorem constant_stream_no_change (c : ℝ) (n : ℕ) :
    (runUpdates (ADWIN.init ADWIN.defaultDelta) (List.replicate n c)).2 =
      List.replicate n false ∧
    ((runUpdates (ADWIN.init ADWIN.defaultDelta) (List.replicate n c)).1.bucket_sizes).sum
      = n := by
  have h := const_run c n (ADWIN.init ADWIN.defaultDelta)
    ⟨by simp [ADWIN.init], by simp [ADWIN.init], by simp [ADWIN.init]⟩
  refine ⟨h.1, ?_⟩
  have h1 := h.2.1.2.2
  have h2 := h.2.2
  rw [← h1, h2]
  simp [ADWIN.init]

/-! ### The width/total consistency invariant -/

lemma AdwinInv_init (d : ℝ) : AdwinInv (ADWIN.init d) := by
  refine ⟨rfl, rfl, ?_⟩
  simp [ADWIN.init, ADWIN.wsum]

lemma AdwinInv_insert {a : ADWIN} (h : AdwinInv a) (v : ℝ) :
    AdwinInv (ADWIN.insert_element a v) := by
  obtain ⟨hlen, hwidth, htotal⟩ := h
  refine ⟨by simp [ADWIN.insert_element, hlen], ?_, ?_⟩
  · simp [ADWIN.insert_element, hwidth]
  · simp only [ADWIN.insert_element]
    rw [List.zip_append hlen, ADWIN.wsum_append, htotal]
    simp [ADWIN.wsum]

lemma zip_map_fst_snd (l : List (ℝ × ℕ)) :
    (l.map Prod.fst).zip (l.map Prod.snd) = l := by
  have h := List.zip_unzip l
  rwa [List.unzip_eq_map] at h

lemma AdwinInv_compress {a : ADWIN} (h : AdwinInv a) :
    AdwinInv (ADWIN.compress_buckets a) := by
  obtain ⟨hlen, hwidth, htotal⟩ := h
  refine ⟨by simp [ADWIN.compress_buckets], ?_, ?_⟩
  · simp only [ADWIN.compress_buckets]
    rw [compressPairs_sizes_sum, List.map_snd_zip _ _ (le_of_eq hlen.symm), hwidth]
  · simp only [ADWIN.compress_buckets]
    rw [zip_map_fst_snd, compressPairs_wsum, htotal]

lemma AdwinInv_detect {a : ADWIN} (h : AdwinInv a) :
    AdwinInv (ADWIN.detect_change a).1 := by
  rw [detect_change_first_hit]
  unfold ADWIN.detectChangeSpec
  obtain ⟨hlen, hwidth, htotal⟩ := h
  rcases ADWIN.firstTrigger a with _ | i
  · exact ⟨hlen, hwidth, htotal⟩
  · refine ⟨by simp [ADWIN.shrinkAt, hlen], rfl, rfl⟩

lemma AdwinInv_update {a : ADWIN} (h : AdwinInv a) (v : ℝ) :
    AdwinInv (ADWIN.update a v).1 :=
  AdwinInv_detect (AdwinInv_compress (AdwinInv_insert h v))

lemma AdwinInv_run {a : ADWIN} (h : AdwinInv a) : ∀ vals : List ℝ,
    AdwinInv (runUpdates a vals).1
  | [] => h
  | v :: vs => by
    simp only [runUpdates]
    exact AdwinInv_run (AdwinInv_update h v) vs

/-- C2 (amended): from a fresh detector, after every insert, compress, and
detect/shrink step the `width` field equals the sum of the bucket sizes and
the `total` field equals the size-weighted sum of the representative values.
(The `variance` field is *not* restored to the size-weighted sum of squared
representatives by compression; see the counterexample.) -/
theorem aggregates_track_buckets :
    (∀ d : ℝ, AdwinInv (ADWIN.init d)) ∧
    (∀ (a : ADWIN) (v : ℝ), AdwinInv a → AdwinInv (ADWIN.insert_element a v)) ∧
    (∀ a : ADWIN, AdwinInv a → AdwinInv (ADWIN.compress_buckets a)) ∧
    (∀ a : ADWIN, AdwinInv a → AdwinInv (ADWIN.detect_change a).1) ∧
    (∀ vals : List ℝ, AdwinInv (runUpdates (ADWIN.init ADWIN.defaultDelta) vals).1) :=
  ⟨AdwinInv_init, fun _ v h => AdwinInv_insert h v, fun _ h => AdwinInv_compress h,
    fun _ h => AdwinInv_detect h,
    fun vals => AdwinInv_run (AdwinInv_init _) vals⟩

/-- C9 (amended): for every state reachable by updates from a fresh detector,
the sum of the bucket sizes equals the window width. (The size sequence
itself need not be monotone; see the counterexample.) -/
theorem sizes_sum_eq_width (vals : List ℝ) :
    ((runUpdates (ADWIN.init ADWIN.defaultDelta) vals).1.bucket_sizes).sum =
      (runUpdates (ADWIN.init ADWIN.defaultDelta) vals).1.width :=
  (AdwinInv_run (AdwinInv_init _) vals).2.1.symm

/-! ### Concrete evaluation of update steps -/

lemma log_2000_lt_8 : Real.log 2000 < 8 := by
  rw [Real.log_lt_iff_lt_exp (by norm_num)]
  have h8 : Real.exp 8 = Real.exp 1 ^ (8 : ℕ) := by
    rw [← Real.exp_nat_mul]; norm_num
  rw [h8]
  calc (2000 : ℝ) < 2.7182818283 ^ (8 : ℕ) := by norm_num
    _ < Real.exp 1 ^ (8 : ℕ) := pow_lt_pow_left₀ Real.exp_one_gt_d9 (by norm_num) (by norm_num)

/-- A state whose very first split already exceeds the threshold shrinks
there: the scan returns at `i = 1` without looking further. -/
lemma ADWIN.detect_change_trigger_one {a : ADWIN}
    (hl : 1 < a.bucket_sizes.length)
    (h0 : ¬(ADWIN.n0 a 1 = 0 ∨ ADWIN.n1 a 1 = 0))
    (hgt : |ADWIN.u0 a 1 - ADWIN.u1 a 1| > ADWIN.eps a 1) :
    ADWIN.detect_change a = (ADWIN.shrinkAt a 1, true) := by
  rw [ADWIN.detect_change, ADWIN.detectLoop]
  simp only [dif_pos hl]
  rw [if_neg h0, if_pos hgt]

lemma adwinStep1 : ADWIN.update (ADWIN.init ADWIN.defaultDelta) 0 =
    (⟨ADWIN.defaultDelta, [0], [1], 0, 0, 1⟩, false) := by
  rw [ADWIN.update]
  have hc : ADWIN.compress_buckets (ADWIN.insert_element (ADWIN.init ADWIN.defaultDelta) 0) =
      ⟨ADWIN.defaultDelta, [0], [1], 0, 0, 1⟩ := by
    simp [ADWIN.init, ADWIN.insert_element, ADWIN.compress_buckets, compressPairs_single]
  rw [hc]
  exact ADWIN.detect_change_const (c := 0) (by norm_num) (by norm_num)

lemma adwinStep2 : ADWIN.update ⟨ADWIN.defaultDelta, [0], [1], 0, 0, 1⟩ 0 =
    (⟨ADWIN.defaultDelta, [0], [2], 0, 0, 2⟩, false) := by
  rw [ADWIN.update]
  have hc : ADWIN.compress_buckets (ADWIN.insert_element ⟨ADWIN.defaultDelta, [0], [1], 0, 0, 1⟩ 0) =
      ⟨ADWIN.defaultDelta, [0], [2], 0, 0, 2⟩ := by
    simp [ADWIN.insert_element, ADWIN.compress_buckets, compressPairs_cons_merge,
      compressPairs_cons_of_ne, compressPairs_single, compressPairs_nil, countRun]
  rw [hc]
  exact ADWIN.detect_change_const (c := 0) (by norm_num) (by norm_num)

lemma adwinStep3 : ADWIN.update ⟨ADWIN.defaultDelta, [0], [2], 0, 0, 2⟩ 0 =
    (⟨ADWIN.defaultDelta, [0, 0], [2, 1], 0, 0, 3⟩, false) := by
  rw [ADWIN.update]
  have hc : ADWIN.compress_buckets (ADWIN.insert_element ⟨ADWIN.defaultDelta, [0], [2], 0, 0, 2⟩ 0) =
      ⟨ADWIN.defaultDelta, [0, 0], [2, 1], 0, 0, 3⟩ := by
    simp [ADWIN.insert_element, ADWIN.compress_buckets, compressPairs_cons_merge,
      compressPairs_cons_of_ne, compressPairs_single, compressPairs_nil, countRun]
  rw [hc]
  exact ADWIN.detect_change_const (c := 0) (by norm_num) (by norm_num)

lemma adwinStep4 : ADWIN.update ⟨ADWIN.defaultDelta, [0, 0], [2, 1], 0, 0, 3⟩ 0 =
    (⟨ADWIN.defaultDelta, [0, 0, 0], [2, 1, 1], 0, 0, 4⟩, false) := by
  rw [ADWIN.update]
  have hc : ADWIN.compress_buckets
      (ADWIN.insert_element ⟨ADWIN.defaultDelta, [0, 0], [2, 1], 0, 0, 3⟩ 0) =
      ⟨ADWIN.defaultDelta, [0, 0, 0], [2, 1, 1], 0, 0, 4⟩ := by
    simp [ADWIN.insert_element, ADWIN.compress_buckets, compressPairs_cons_merge,
      compressPairs_cons_of_ne, compressPairs_single, compressPairs_nil, countRun]
  rw [hc]
  exact ADWIN.detect_change_const (c := 0) (by norm_num) (by norm_num)

lemma adwinStep5 : ADWIN.update ⟨ADWIN.defaultDelta, [0, 0, 0], [2, 1, 1], 0, 0, 4⟩ 0 =
    (⟨ADWIN.defaultDelta, [0, 0, 0], [2, 1, 2], 0, 0, 5⟩, false) := by
  rw [ADWIN.update]
  have hc : ADWIN.compress_buckets
      (ADWIN.insert_element ⟨ADWIN.defaultDelta, [0, 0, 0], [2, 1, 1], 0, 0, 4⟩ 0) =
      ⟨ADWIN.defaultDelta, [0, 0, 0], [2, 1, 2], 0, 0, 5⟩ := by
    simp [ADWIN.insert_element, ADWIN.compress_buckets, compressPairs_cons_merge,
      compressPairs_cons_of_ne, compressPairs_single, compressPairs_nil, countRun]
  rw [hc]
  exact ADWIN.detect_change_const (c := 0) (by norm_num) (by norm_num)

lemma adwinStep6 : ADWIN.update ⟨ADWIN.defaultDelta, [0, 0, 0], [2, 1, 2], 0, 0, 5⟩ 100 =
    (⟨ADWIN.defaultDelta, [0, 0, 100], [1, 2, 1], 100, 10000, 4⟩, true) := by
  rw [ADWIN.update]
  have hc : ADWIN.compress_buckets
      (ADWIN.insert_element ⟨ADWIN.defaultDelta, [0, 0, 0], [2, 1, 2], 0, 0, 5⟩ 100) =
      ⟨ADWIN.defaultDelta, [0, 0, 0, 100], [2, 1, 2, 1], 100, 10000, 6⟩ := by
    simp [ADWIN.insert_element, ADWIN.compress_buckets, compressPairs_cons_merge,
      compressPairs_cons_of_ne, compressPairs_single, compressPairs_nil, countRun]
    norm_num
  rw [hc]
  have h := ADWIN.detect_change_trigger_one
    (a := ⟨ADWIN.defaultDelta, [0, 0, 0, 100], [2, 1, 2, 1], 100, 10000, 6⟩)
    (by norm_num)
    (by norm_num [ADWIN.n0, ADWIN.n1])
    (by
      have hu0 : ADWIN.u0 ⟨ADWIN.defaultDelta, [0, 0, 0, 100], [2, 1, 2, 1], 100, 10000, 6⟩ 1
          = 0 := by
        norm_num [ADWIN.u0, ADWIN.n0, ADWIN.wsum]
      have hu1 : ADWIN.u1 ⟨ADWIN.defaultDelta, [0, 0, 0, 100], [2, 1, 2, 1], 100, 10000, 6⟩ 1
          = 25 := by
        norm_num [ADWIN.u1, ADWIN.n1, ADWIN.wsum]
      have heps : ADWIN.eps ⟨ADWIN.defaultDelta, [0, 0, 0, 100], [2, 1, 2, 1], 100, 10000, 6⟩ 1
          < 25 := by
        unfold ADWIN.eps
        rw [show ((4 : ℝ) /
            (ADWIN.mk ADWIN.defaultDelta [0, 0, 0, 100] [2, 1, 2, 1] 100 10000 6).delta)
            = 2000 by norm_num [ADWIN.defaultDelta]]
        rw [Real.sqrt_lt' (by norm_num)]
        have h8 := log_2000_lt_8
        norm_num [ADWIN.n0, ADWIN.n1]
        nlinarith [h8]
      rw [hu0, hu1, show |(0 : ℝ) - 25| = 25 by norm_num]
      exact heps)
  rw [h]
  congr 1
  simp [ADWIN.shrinkAt, ADWIN.n1, ADWIN.wsum, ADWIN.wsqsum]
  norm_num

lemma adwinStep7 :
    ADWIN.update ⟨ADWIN.defaultDelta, [0, 0, 100], [1, 2, 1], 100, 10000, 4⟩ (-100) =
    (⟨ADWIN.defaultDelta, [0, 0, 0], [1, 2, 2], 0, 20000, 5⟩, false) := by
  rw [ADWIN.update]
  have hc : ADWIN.compress_buckets
      (ADWIN.insert_element ⟨ADWIN.defaultDelta, [0, 0, 100], [1, 2, 1], 100, 10000, 4⟩ (-100)) =
      ⟨ADWIN.defaultDelta, [0, 0, 0], [1, 2, 2], 0, 20000, 5⟩ := by
    simp [ADWIN.insert_element, ADWIN.compress_buckets, compressPairs_cons_merge,
      compressPairs_cons_of_ne, compressPairs_single, compressPairs_nil, countRun]
    norm_num
  rw [hc]
  exact ADWIN.detect_change_const (c := 0) (by norm_num) (by norm_num)

lemma adwinStep8 : ADWIN.update ⟨ADWIN.defaultDelta, [0, 0, 0], [1, 2, 2], 0, 20000, 5⟩ 0 =
    (⟨ADWIN.defaultDelta, [0, 0, 0, 0], [1, 2, 2, 1], 0, 20000, 6⟩, false) := by
  rw [ADWIN.update]
  have hc : ADWIN.compress_buckets
      (ADWIN.insert_element ⟨ADWIN.defaultDelta, [0, 0, 0], [1, 2, 2], 0, 20000, 5⟩ 0) =
      ⟨ADWIN.defaultDelta, [0, 0, 0, 0], [1, 2, 2, 1], 0, 20000, 6⟩ := by
    simp [ADWIN.insert_element, ADWIN.compress_buckets, compressPairs_cons_merge,
      compressPairs_cons_of_ne, compressPairs_single, compressPairs_nil, countRun]
  rw [hc]
  exact ADWIN.detect_change_const (c := 0) (by norm_num) (by norm_num)

lemma adwinStep9 : ADWIN.update ⟨ADWIN.defaultDelta, [0, 0, 0, 0], [1, 2, 2, 1], 0, 20000, 6⟩ 0 =
    (⟨ADWIN.defaultDelta, [0, 0, 0, 0, 0], [1, 2, 2, 1, 1], 0, 20000, 7⟩, false) := by
  rw [ADWIN.update]
  have hc : ADWIN.compress_buckets
      (ADWIN.insert_element ⟨ADWIN.defaultDelta, [0, 0, 0, 0], [1, 2, 2, 1], 0, 20000, 6⟩ 0) =
      ⟨ADWIN.defaultDelta, [0, 0, 0, 0, 0], [1, 2, 2, 1, 1], 0, 20000, 7⟩ := by
    simp [ADWIN.insert_element, ADWIN.compress_buckets, compressPairs_cons_merge,
      compressPairs_cons_of_ne, compressPairs_single, compressPairs_nil, countRun]
  rw [hc]
  exact ADWIN.detect_change_const (c := 0) (by norm_num) (by norm_num)

lemma adwinStep10 :
    ADWIN.update ⟨ADWIN.defaultDelta, [0, 0, 0, 0, 0], [1, 2, 2, 1, 1], 0, 20000, 7⟩ 0 =
    (⟨ADWIN.defaultDelta, [0, 0, 0, 0, 0], [1, 2, 2, 1, 2], 0, 20000, 8⟩, false) := by
  rw [ADWIN.update]
  have hc : ADWIN.compress_buckets
      (ADWIN.insert_element ⟨ADWIN.defaultDelta, [0, 0, 0, 0, 0], [1, 2, 2, 1, 1], 0, 20000, 7⟩ 0) =
      ⟨ADWIN.defaultDelta, [0, 0, 0, 0, 0], [1, 2, 2, 1, 2], 0, 20000, 8⟩ := by
    simp [ADWIN.insert_element, ADWIN.compress_buckets, compressPairs_cons_merge,
      compressPairs_cons_of_ne, compressPairs_single, compressPairs_nil, countRun]
  rw [hc]
  exact ADWIN.detect_change_const (c := 0) (by norm_num) (by norm_num)

lemma adwinStep11 :
    ADWIN.update ⟨ADWIN.defaultDelta, [0, 0, 0, 0, 0], [1, 2, 2, 1, 2], 0, 20000, 8⟩ 0 =
    (⟨ADWIN.defaultDelta, [0, 0, 0, 0, 0, 0], [1, 2, 2, 1, 2, 1], 0, 20000, 9⟩, false) := by
  rw [ADWIN.update]
  have hc : ADWIN.compress_buckets
      (ADWIN.insert_element ⟨ADWIN.defaultDelta, [0, 0, 0, 0, 0], [1, 2, 2, 1, 2], 0, 20000, 8⟩ 0) =
      ⟨ADWIN.defaultDelta, [0, 0, 0, 0, 0, 0], [1, 2, 2, 1, 2, 1], 0, 20000, 9⟩ := by
    simp [ADWIN.insert_element, ADWIN.compress_buckets, compressPairs_cons_merge,
      compressPairs_cons_of_ne, compressPairs_single, compressPairs_nil, countRun]
  rw [hc]
  exact ADWIN.detect_change_const (c := 0) (by norm_num) (by norm_num)

lemma adwinStep12 :
    ADWIN.update ⟨ADWIN.defaultDelta, [0, 0, 0, 0, 0, 0], [1, 2, 2, 1, 2, 1], 0, 20000, 9⟩ 100 =
    (⟨ADWIN.defaultDelta, [0, 0, 0, 0, 0, 100], [2, 2, 1, 2, 1, 1], 100, 10000, 9⟩, true) := by
  rw [ADWIN.update]
  have hc : ADWIN.compress_buckets
      (ADWIN.insert_element
        ⟨ADWIN.defaultDelta, [0, 0, 0, 0, 0, 0], [1, 2, 2, 1, 2, 1], 0, 20000, 9⟩ 100) =
      ⟨ADWIN.defaultDelta, [0, 0, 0, 0, 0, 0, 100], [1, 2, 2, 1, 2, 1, 1], 100, 30000, 10⟩ := by
    simp [ADWIN.insert_element, ADWIN.compress_buckets, compressPairs_cons_merge,
      compressPairs_cons_of_ne, compressPairs_single, compressPairs_nil, countRun]
    norm_num
  rw [hc]
  have h := ADWIN.detect_change_trigger_one
    (a := ⟨ADWIN.defaultDelta, [0, 0, 0, 0, 0, 0, 100], [1, 2, 2, 1, 2, 1, 1], 100, 30000, 10⟩)
    (by norm_num)
    (by norm_num [ADWIN.n0, ADWIN.n1])
    (by
      have hu0 : ADWIN.u0
          ⟨ADWIN.defaultDelta, [0, 0, 0, 0, 0, 0, 100], [1, 2, 2, 1, 2, 1, 1], 100, 30000, 10⟩ 1
          = 0 := by
        norm_num [ADWIN.u0, ADWIN.n0, ADWIN.wsum]
      have hu1 : ADWIN.u1
          ⟨ADWIN.defaultDelta, [0, 0, 0, 0, 0, 0, 100], [1, 2, 2, 1, 2, 1, 1], 100, 30000, 10⟩ 1
          = 100 / 9 := by
        norm_num [ADWIN.u1, ADWIN.n1, ADWIN.wsum]
      have heps : ADWIN.eps
          ⟨ADWIN.defaultDelta, [0, 0, 0, 0, 0, 0, 100], [1, 2, 2, 1, 2, 1, 1], 100, 30000, 10⟩ 1
          < 100 / 9 := by
        unfold ADWIN.eps
        rw [show ((4 : ℝ) /
            (ADWIN.mk ADWIN.defaultDelta [0, 0, 0, 0, 0, 0, 100]
              [1, 2, 2, 1, 2, 1, 1] 100 30000 10).delta)
            = 2000 by norm_num [ADWIN.defaultDelta]]
        rw [Real.sqrt_lt' (by norm_num)]
        have h8 := log_2000_lt_8
        norm_num [ADWIN.n0, ADWIN.n1]
        nlinarith [h8]
      rw [hu0, hu1, show |(0 : ℝ) - 100 / 9| = 100 / 9 by norm_num]
      exact heps)
  rw [h]
  congr 1
  simp [ADWIN.shrinkAt, ADWIN.n1, ADWIN.wsum, ADWIN.wsqsum]
  norm_num

lemma adwinStep2' : ADWIN.update ⟨ADWIN.defaultDelta, [0], [1], 0, 0, 1⟩ 1 =
    (⟨ADWIN.defaultDelta, [1 / 2], [2], 1, 1, 2⟩, false) := by
  rw [ADWIN.update]
  have hc : ADWIN.compress_buckets (ADWIN.insert_element ⟨ADWIN.defaultDelta, [0], [1], 0, 0, 1⟩ 1) =
      ⟨ADWIN.defaultDelta, [1 / 2], [2], 1, 1, 2⟩ := by
    simp [ADWIN.insert_element, ADWIN.compress_buckets, compressPairs_cons_merge,
      compressPairs_cons_of_ne, compressPairs_single, compressPairs_nil, countRun]
    norm_num
  rw [hc]
  exact ADWIN.detect_change_const (c := 1 / 2) (by norm_num) (by norm_num)

/-- Counterexample to C2: after inserting `0` then `1`, the two size-1
buckets merge into one bucket `(1/2, 2)`; the `variance` field still holds
`0² + 1² = 1` while the size-weighted sum of squared representatives is
`(1/2)² * 2 = 1/2`. -/
theorem variance_after_merge_mismatch :
    (runUpdates (ADWIN.init ADWIN.defaultDelta) [0, 1]).1.variance = 1 ∧
    ADWIN.wsqsum ((runUpdates (ADWIN.init ADWIN.defaultDelta) [0, 1]).1.bucket_row.zip
      (runUpdates (ADWIN.init ADWIN.defaultDelta) [0, 1]).1.bucket_sizes) = 1 / 2 ∧
    (runUpdates (ADWIN.init ADWIN.defaultDelta) [0, 1]).1.variance ≠
      ADWIN.wsqsum ((runUpdates (ADWIN.init ADWIN.defaultDelta) [0, 1]).1.bucket_row.zip
        (runUpdates (ADWIN.init ADWIN.defaultDelta) [0, 1]).1.bucket_sizes) := by
  have hrun : runUpdates (ADWIN.init ADWIN.defaultDelta) [0, 1] =
      (⟨ADWIN.defaultDelta, [1 / 2], [2], 1, 1, 2⟩, [false, false]) := by
    simp only [runUpdates, adwinStep1, adwinStep2']
  rw [hrun]
  refine ⟨rfl, by norm_num [ADWIN.wsqsum], by norm_num [ADWIN.wsqsum]⟩

/-- Counterexample to C9: after five updates with the value `0` the bucket
sizes are `[2, 1, 2]` (insertion order), which is neither non-decreasing nor
non-increasing. -/
theorem reachable_sizes_not_monotone :
    (runUpdates (ADWIN.init ADWIN.defaultDelta) [0, 0, 0, 0, 0]).1.bucket_sizes = [2, 1, 2] ∧
    ¬ List.Chain' (· ≤ ·)
      (runUpdates (ADWIN.init ADWIN.defaultDelta) [0, 0, 0, 0, 0]).1.bucket_sizes ∧
    ¬ List.Chain' (· ≥ ·)
      (runUpdates (ADWIN.init ADWIN.defaultDelta) [0, 0, 0, 0, 0]).1.bucket_sizes := by
  have hrun : runUpdates (ADWIN.init ADWIN.defaultDelta) [0, 0, 0, 0, 0] =
      (⟨ADWIN.defaultDelta, [0, 0, 0], [2, 1, 2], 0, 0, 5⟩,
        [false, false, false, false, false]) := by
    simp only [runUpdates, adwinStep1, adwinStep2, adwinStep3, adwinStep4, adwinStep5]
  rw [hrun]
  exact ⟨rfl, by simp [List.chain'_cons], by simp [List.chain'_cons]⟩

/-- Counterexample to C3: running the stream
`0,0,0,0,0,100,-100,0,0,0,0,100` from a fresh detector (the two `100`s each
trigger a shrink at the first split) reaches bucket sizes
`[2,2,1,2,1,1]`; one further compression gives `[4,1,2,2]`, but compressing
twice gives `[4,1,4]`. -/
theorem compress_not_idempotent_reachable :
    (ADWIN.compress_buckets (runUpdates (ADWIN.init ADWIN.defaultDelta)
        [0, 0, 0, 0, 0, 100, -100, 0, 0, 0, 0, 100]).1).bucket_sizes = [4, 1, 2, 2] ∧
    (ADWIN.compress_buckets (ADWIN.compress_buckets (runUpdates (ADWIN.init ADWIN.defaultDelta)
        [0, 0, 0, 0, 0, 100, -100, 0, 0, 0, 0, 100]).1)).bucket_sizes = [4, 1, 4] ∧
    ADWIN.compress_buckets (ADWIN.compress_buckets (runUpdates (ADWIN.init ADWIN.defaultDelta)
        [0, 0, 0, 0, 0, 100, -100, 0, 0, 0, 0, 100]).1) ≠
      ADWIN.compress_buckets (runUpdates (ADWIN.init ADWIN.defaultDelta)
        [0, 0, 0, 0, 0, 100, -100, 0, 0, 0, 0, 100]).1 := by
  have hrun : runUpdates (ADWIN.init ADWIN.defaultDelta)
      [0, 0, 0, 0, 0, 100, -100, 0, 0, 0, 0, 100] =
      (⟨ADWIN.defaultDelta, [0, 0, 0, 0, 0, 100], [2, 2, 1, 2, 1, 1], 100, 10000, 9⟩,
        [false, false, false, false, false, true, false, false, false, false, false, true]) := by
    simp only [runUpdates, adwinStep1, adwinStep2, adwinStep3, adwinStep4, adwinStep5,
      adwinStep6, adwinStep7, adwinStep8, adwinStep9, adwinStep10, adwinStep11, adwinStep12]
  have hc1 : ADWIN.compress_buckets
      ⟨ADWIN.defaultDelta, [0, 0, 0, 0, 0, 100], [2, 2, 1, 2, 1, 1], 100, 10000, 9⟩ =
      ⟨ADWIN.defaultDelta, [0, 0, 0, 50], [4, 1, 2, 2], 100, 10000, 9⟩ := by
    simp [ADWIN.compress_buckets, compressPairs_cons_merge,
      compressPairs_cons_of_ne, compressPairs_single, compressPairs_nil, countRun]
    norm_num
  have hc2 : ADWIN.compress_buckets
      ⟨ADWIN.defaultDelta, [0, 0, 0, 50], [4, 1, 2, 2], 100, 10000, 9⟩ =
      ⟨ADWIN.defaultDelta, [0, 0, 25], [4, 1, 4], 100, 10000, 9⟩ := by
    simp [ADWIN.compress_buckets, compressPairs_cons_merge,
      compressPairs_cons_of_ne, compressPairs_single, compressPairs_nil, countRun]
    norm_num
  rw [hrun, hc1, hc2]
  refine ⟨rfl, rfl, ?_⟩
  intro h
  have := congrArg ADWIN.bucket_sizes h
  simp at this

/-! ### Idempotence of compression on shrink-free runs -/

lemma NSForm_fix {l : List (ℝ × ℕ)} (h : NSForm l) : compressPairs l = l := by
  induction h with
  | nil => exact compressPairs_nil
  | one a => exact compressPairs_single a 1
  | two a => exact compressPairs_single a 2
  | block a b l _ ih =>
    rw [compressPairs_cons_of_ne a 2 (b, 1) l (by norm_num), ih]

lemma NSForm_insert {l : List (ℝ × ℕ)} (h : NSForm l) (v : ℝ) :
    NSForm (compressPairs (l ++ [(v, 1)])) := by
  induction h with
  | nil =>
    rw [List.nil_append, compressPairs_single]
    exact NSForm.one v
  | one a =>
    have hmerge := compressPairs_cons_merge a 1 [(v, 1)] (by simp [countRun])
    simp only [countRun, if_pos rfl, List.map_cons, List.map_nil] at hmerge
    rw [List.singleton_append, hmerge]
    simp only [List.take, List.map_cons, List.sum_cons, List.drop, compressPairs_nil]
    exact NSForm.two _
  | two a =>
    rw [List.singleton_append, compressPairs_cons_of_ne a 2 (v, 1) [] (by norm_num),
      compressPairs_nil]
    exact NSForm.block a v [] NSForm.nil
  | block a b l _ ih =>
    rw [List.cons_append, List.cons_append,
      compressPairs_cons_of_ne a 2 (b, 1) (l ++ [(v, 1)]) (by norm_num)]
    exact NSForm.block a b _ ih

/-- On a run in which no update ever reports a change, every reached state
keeps its zipped bucket list in `NSForm` (and its two lists aligned). -/
lemma NSForm_reach (vals : List ℝ) : ∀ a : ADWIN,
    NSForm (a.bucket_row.zip a.bucket_sizes) →
    a.bucket_row.length = a.bucket_sizes.length →
    (runUpdates a vals).2 = List.replicate vals.length false →
    NSForm ((runUpdates a vals).1.bucket_row.zip (runUpdates a vals).1.bucket_sizes) ∧
      (runUpdates a vals).1.bucket_row.length =
        (runUpdates a vals).1.bucket_sizes.length := by
  induction vals with
  | nil =>
    intro a hns hlen _
    exact ⟨hns, hlen⟩
  | cons v vs ih =>
    intro a hns hlen hflags
    have hexp : runUpdates a (v :: vs) =
        ((runUpdates (ADWIN.update a v).1 vs).1,
          (ADWIN.update a v).2 :: (runUpdates (ADWIN.update a v).1 vs).2) := rfl
    rw [hexp, List.length_cons, List.replicate_succ] at hflags
    simp only [List.cons.injEq] at hflags
    obtain ⟨hfalse, hrest⟩ := hflags
    have hupd : ADWIN.update a v =
        (ADWIN.compress_buckets (ADWIN.insert_element a v), false) :=
      ADWIN.detect_change_of_snd_false hfalse
    have hlenb : (ADWIN.compress_buckets (ADWIN.insert_element a v)).bucket_row.length =
        (ADWIN.compress_buckets (ADWIN.insert_element a v)).bucket_sizes.length := by
      simp [ADWIN.compress_buckets]
    have hnsb : NSForm
        ((ADWIN.compress_buckets (ADWIN.insert_element a v)).bucket_row.zip
          (ADWIN.compress_buckets (ADWIN.insert_element a v)).bucket_sizes) := by
      have hz : (ADWIN.compress_buckets (ADWIN.insert_element a v)).bucket_row.zip
          (ADWIN.compress_buckets (ADWIN.insert_element a v)).bucket_sizes =
          compressPairs ((a.bucket_row.zip a.bucket_sizes) ++ [(v, 1)]) := by
        simp only [ADWIN.compress_buckets, ADWIN.insert_element]
        rw [zip_map_fst_snd, List.zip_append hlen]
        simp
      rw [hz]
      exact NSForm_insert hns v
    have hb1 : (ADWIN.update a v).1 = ADWIN.compress_buckets (ADWIN.insert_element a v) := by
      rw [hupd]
    rw [hb1] at hrest
    have hrec := ih _ hnsb hlenb hrest
    rw [hexp]
    simpa [hb1] using hrec

/-- A state whose zipped bucket list is in `NSForm` is a fixed point of
compression. -/
lemma compress_buckets_fix {a : ADWIN}
    (hns : NSForm (a.bucket_row.zip a.bucket_sizes))
    (hlen : a.bucket_row.length = a.bucket_sizes.length) :
    ADWIN.compress_buckets a = a := by
  simp only [ADWIN.compress_buckets]
  rw [NSForm_fix hns, List.map_fst_zip _ _ (le_of_eq hlen),
    List.map_snd_zip _ _ (le_of_eq hlen.symm)]

/-- C3 (amended): on any run from a fresh detector in which no update ever
reports a change, the reached bucket list is a fixed point of compression,
so compressing twice equals compressing once.  (With drift-triggered shrinks
this fails; see the counterexample.) -/
theorem compress_idempotent_without_shrink (vals : List ℝ)
    (h : (runUpdates (ADWIN.init ADWIN.defaultDelta) vals).2 =
      List.replicate vals.length false) :
    ADWIN.compress_buckets (ADWIN.compress_buckets
        (runUpdates (ADWIN.init ADWIN.defaultDelta) vals).1) =
      ADWIN.compress_buckets (runUpdates (ADWIN.init ADWIN.defaultDelta) vals).1 := by
  obtain ⟨hns, hlen⟩ := NSForm_reach vals (ADWIN.init ADWIN.defaultDelta)
    (by simpa [ADWIN.init] using NSForm.nil) (by simp [ADWIN.init]) h
  rw [compress_buckets_fix hns hlen]
  exact compress_buckets_fix hns hlen

/-- Witness for the amended C3 at the concrete run `[0, 0, 0]`. -/
theorem compress_idempotent_without_shrink_witness :
    (runUpdates (ADWIN.init ADWIN.defaultDelta) [0, 0, 0]).2 =
      List.replicate ([0, 0, 0] : List ℝ).length false ∧
    ADWIN.compress_buckets (ADWIN.compress_buckets
        (runUpdates (ADWIN.init ADWIN.defaultDelta) [0, 0, 0]).1) =
      ADWIN.compress_buckets (runUpdates (ADWIN.init ADWIN.defaultDelta) [0, 0, 0]).1 := by
  have h : (runUpdates (ADWIN.init ADWIN.defaultDelta) [0, 0, 0]).2 =
      List.replicate ([0, 0, 0] : List ℝ).length false := by
    simp only [runUpdates, adwinStep1, adwinStep2, adwinStep3]
    rfl
  exact ⟨h, compress_idempotent_without_shrink [0, 0, 0] h⟩

/-! ### The anomaly detector's warm-up and full-window behaviour -/

/-- While the trailing window stays strictly below capacity, every call
returns `is_anomaly = false` paired with the drift detector's result. -/
lemma runDetector_below (vals : List ℝ) : ∀ d : AnomalyDetector,
    d.window.length + vals.length < d.maxlen →
    (runDetector d vals).2.map Prod.fst = List.replicate vals.length false ∧
    (runDetector d vals).2.map Prod.snd = (runUpdates d.adwin vals).2 := by
  induction vals with
  | nil =>
    intro d _
    simp [runDetector, runUpdates]
  | cons v vs ih =>
    intro d hlt
    have hexp : runDetector d (v :: vs) =
        ((runDetector (detect_anomaly d v).2 vs).1,
          (detect_anomaly d v).1 :: (runDetector (detect_anomaly d v).2 vs).2) := rfl
    have hwlen : d.window.length < d.maxlen := by simp at hlt; omega
    have happ : dequeAppend d.maxlen d.window v = d.window ++ [v] := by
      simp [dequeAppend, hwlen]
    have hlen2 : (dequeAppend d.maxlen d.window v).length < d.maxlen := by
      rw [happ]
      simp at hlt ⊢
      omega
    have hda : detect_anomaly d v =
        ((false, (ADWIN.update d.adwin v).2),
          { d with window := d.window ++ [v], adwin := (ADWIN.update d.adwin v).1 }) := by
      rw [detect_anomaly, happ]
      rw [if_pos (happ ▸ hlen2)]
    have hrec := ih { d with window := d.window ++ [v], adwin := (ADWIN.update d.adwin v).1 }
      (by simp at hlt ⊢; omega)
    rw [hexp, hda]
    constructor
    · simp [hrec.1, List.replicate_succ]
    · have hru : runUpdates d.adwin (v :: vs) =
          ((runUpdates (ADWIN.update d.adwin v).1 vs).1,
            (ADWIN.update d.adwin v).2 :: (runUpdates (ADWIN.update d.adwin v).1 vs).2) := rfl
      rw [hru]
      simp only [List.map_cons, List.cons.injEq]
      exact ⟨trivial, by simpa using hrec.2⟩

/-- C5: on a fresh detector of capacity `ws`, each of the first `ws - 1`
calls returns `is_anomaly = false` regardless of the values fed, while still
returning the drift detector's `concept_drift` result for each value. -/
theorem warmup_returns_no_anomaly (ws : ℕ) (zt : ℝ) (vals : List ℝ)
    (h : vals.length < ws) :
    (runDetector (AnomalyDetector.init ws zt) vals).2.map Prod.fst =
      List.replicate vals.length false ∧
    (runDetector (AnomalyDetector.init ws zt) vals).2.map Prod.snd =
      (runUpdates (ADWIN.init ADWIN.defaultDelta) vals).2 := by
  have hres := runDetector_below vals (AnomalyDetector.init ws zt)
    (by simp [AnomalyDetector.init]; omega)
  simpa [AnomalyDetector.init] using hres

/-- Witness for C5: one huge value into a fresh default-sized detector. -/
theorem warmup_returns_no_anomaly_witness :
    ([(1000 : ℝ)].length < 50) ∧
    ((runDetector (AnomalyDetector.init 50 3) [(1000 : ℝ)]).2.map Prod.fst =
      List.replicate [(1000 : ℝ)].length false ∧
    (runDetector (AnomalyDetector.init 50 3) [(1000 : ℝ)]).2.map Prod.snd =
      (runUpdates (ADWIN.init ADWIN.defaultDelta) [(1000 : ℝ)]).2) :=
  ⟨by norm_num, warmup_returns_no_anomaly 50 3 [(1000 : ℝ)] (by norm_num)⟩

/-- C6: once the window (after appending the new value) has reached full
capacity, the anomaly flag is exactly the comparison of the absolute Z-score
`|(value - mean) / std_dev|` against the threshold, where `mean` is the
window's arithmetic mean and `std_dev` is the square root of its population
variance floored at `1e-6`; the drift flag still comes from the ADWIN
update. -/
theorem full_window_z_score (d : AnomalyDetector) (v : ℝ)
    (h : (dequeAppend d.maxlen d.window v).length = d.maxlen) :
    ((detect_anomaly d v).1.1 = true ↔
      |(v - winMean (dequeAppend d.maxlen d.window v)) /
        winStdDev (dequeAppend d.maxlen d.window v)| > d.z_threshold) ∧
    (detect_anomaly d v).1.2 = (ADWIN.update d.adwin v).2 := by
  have hnlt : ¬ (dequeAppend d.maxlen d.window v).length < d.maxlen := by omega
  rw [detect_anomaly]
  simp only [if_neg hnlt]
  exact ⟨decide_eq_true_iff, trivial⟩

/-- Witness for C6: a window of capacity 1 is full after one append; the
value equals the mean, the Z-score is 0 and no anomaly is flagged. -/
theorem full_window_z_score_witness :
    ((dequeAppend (AnomalyDetector.init 1 3).maxlen (AnomalyDetector.init 1 3).window
        (5 : ℝ)).length = (AnomalyDetector.init 1 3).maxlen) ∧
    (((detect_anomaly (AnomalyDetector.init 1 3) 5).1.1 = true ↔
      |((5 : ℝ) - winMean (dequeAppend (AnomalyDetector.init 1 3).maxlen
          (AnomalyDetector.init 1 3).window 5)) /
        winStdDev (dequeAppend (AnomalyDetector.init 1 3).maxlen
          (AnomalyDetector.init 1 3).window 5)| > (AnomalyDetector.init 1 3).z_threshold) ∧
    (detect_anomaly (AnomalyDetector.init 1 3) 5).1.2 =
      (ADWIN.update (AnomalyDetector.init 1 3).adwin 5).2) :=
  ⟨by simp [AnomalyDetector.init, dequeAppend],
    full_window_z_score (AnomalyDetector.init 1 3) 5
      (by simp [AnomalyDetector.init, dequeAppend])⟩

/-! ### The server's reply priority and session loop -/

/-- Two replies built from templates of different lengths over the same
substituted value text are never equal. -/
lemma reply_ne_of_len {a b : String} (h : a.length ≠ b.length) (s : String) :
    a ++ s ≠ b ++ s := by
  intro he
  apply h
  have hl := congrArg String.length he
  rw [String.length_append, String.length_append] at hl
  omega

/-- C7: for a parseable payload the server replies with `response` applied to
the detector's pair; when both `is_anomaly` and `concept_drift` are true the
reply is the anomaly template and never the drift template; the drift
template is sent only when `is_anomaly` is false and `concept_drift` true,
and the plain receipt only when both are false. -/
theorem reply_priority (parse : String → Option ℝ) (fmt : ℝ → String)
    (d : AnomalyDetector) (data : String) (v : ℝ) :
    (data ≠ "" → data ≠ "exit" → parse data = some v →
      sessionStep parse fmt d data =
        .reply (response (detect_anomaly d v).1.1 (detect_anomaly d v).1.2 (fmt v))
          (detect_anomaly d v).2) ∧
    ((detect_anomaly d v).1.1 = true → (detect_anomaly d v).1.2 = true →
      response (detect_anomaly d v).1.1 (detect_anomaly d v).1.2 (fmt v) =
          "Anomaly detected: " ++ fmt v ∧
        response (detect_anomaly d v).1.1 (detect_anomaly d v).1.2 (fmt v) ≠
          "Concept drift detected: " ++ fmt v) ∧
    (response (detect_anomaly d v).1.1 (detect_anomaly d v).1.2 (fmt v) =
        "Concept drift detected: " ++ fmt v →
      (detect_anomaly d v).1.1 = false ∧ (detect_anomaly d v).1.2 = true) ∧
    (response (detect_anomaly d v).1.1 (detect_anomaly d v).1.2 (fmt v) =
        "Data received: " ++ fmt v →
      (detect_anomaly d v).1.1 = false ∧ (detect_anomaly d v).1.2 = false) := by
  have hlen1 : ("Anomaly detected: " : String).length = 18 := rfl
  have hlen2 : ("Concept drift detected: " : String).length = 24 := rfl
  have hlen3 : ("Data received: " : String).length = 15 := rfl
  refine ⟨?_, ?_, ?_, ?_⟩
  · intro h1 h2 hp
    rw [sessionStep, if_neg (by simp [h1, h2]), hp]
  · intro ha hc
    rw [ha, hc]
    refine ⟨by simp [response], ?_⟩
    simp only [response, if_pos rfl]
    exact reply_ne_of_len (by rw [hlen1, hlen2]; omega) (fmt v)
  · intro hresp
    cases ha : (detect_anomaly d v).1.1 <;> cases hc : (detect_anomaly d v).1.2
    · rw [ha, hc] at hresp
      simp only [response, Bool.false_eq_true, if_false] at hresp
      exact absurd hresp (reply_ne_of_len (by rw [hlen3, hlen2]; omega) (fmt v))
    · exact ⟨rfl, rfl⟩
    · rw [ha, hc] at hresp
      simp only [response, if_true] at hresp
      exact absurd hresp (reply_ne_of_len (by rw [hlen1, hlen2]; omega) (fmt v))
    · rw [ha, hc] at hresp
      simp only [response, if_true] at hresp
      exact absurd hresp (reply_ne_of_len (by rw [hlen1, hlen2]; omega) (fmt v))
  · intro hresp
    cases ha : (detect_anomaly d v).1.1 <;> cases hc : (detect_anomaly d v).1.2
    · exact ⟨rfl, rfl⟩
    · rw [ha, hc] at hresp
      simp only [response, Bool.false_eq_true, if_false, if_true] at hresp
      exact absurd hresp (reply_ne_of_len (by rw [hlen2, hlen3]; omega) (fmt v))
    · rw [ha, hc] at hresp
      simp only [response, if_true] at hresp
      exact absurd hresp (reply_ne_of_len (by rw [hlen1, hlen3]; omega) (fmt v))
    · rw [ha, hc] at hresp
      simp only [response, if_true] at hresp
      exact absurd hresp (reply_ne_of_len (by rw [hlen1, hlen3]; omega) (fmt v))

/-- C8: a non-empty payload other than `exit` that the float parser rejects
is answered with the literal `Invalid data` and the loop keeps going with the
detector state untouched; the loop terminates exactly on an empty payload or
the `exit` sentinel. -/
theorem invalid_data_continues (parse : String → Option ℝ) (fmt : ℝ → String)
    (d : AnomalyDetector) (data : String) (rest : List String) :
    ((data ≠ "" ∧ data ≠ "exit" ∧ parse data = none) →
      sessionStep parse fmt d data = .reply "Invalid data" d ∧
      sessionRun parse fmt d (data :: rest) =
        ("Invalid data" :: (sessionRun parse fmt d rest).1,
          (sessionRun parse fmt d rest).2)) ∧
    (sessionStep parse fmt d data = .terminated ↔ (data = "" ∨ data = "exit")) := by
  constructor
  · rintro ⟨h1, h2, hp⟩
    have hstep : sessionStep parse fmt d data = .reply "Invalid data" d := by
      rw [sessionStep, if_neg (by simp [h1, h2]), hp]
    refine ⟨hstep, ?_⟩
    have hexp : sessionRun parse fmt d (data :: rest) =
        (match sessionStep parse fmt d data with
          | .terminated => ([], true)
          | .reply r d' =>
            ((r :: (sessionRun parse fmt d' rest).1), (sessionRun parse fmt d' rest).2)) := rfl
    rw [hexp, hstep]
  · constructor
    · intro h
      by_cases hterm : data = "" ∨ data = "exit"
      · exact hterm
      · exfalso
        rw [sessionStep, if_neg hterm] at h
        rcases hpd : parse data with _ | x
        · rw [hpd] at h
          exact SessionStep.noConfusion h
        · rw [hpd] at h
          exact SessionStep.noConfusion h
    · intro h
      rw [sessionStep, if_pos h]
